import Mathlib

/-!
Verification of the fasttemplate placeholder-substitution engine.

Byte strings are modelled as `List Char` (one `Char` per byte; all inputs of
interest are ASCII).  The scanning loops of the source are embedded as
structurally recursive functions on an explicit fuel argument; the public
entry points supply `length + 1` fuel, which the strictly left-to-right
consumption of the template never exhausts.  Writers (`io.Writer`) are
modelled as state transformers `σ → Bytes → σ × Nat × Option Err` returning
the new sink state, the reported byte count and an optional error.
-/

set_option maxRecDepth 10000

abbrev Bytes := List Char

/-- Conversion from a Lean string literal to the byte-list model. -/
def str (s : String) : Bytes := s.data

/-- Errors surfaced by the library: the three sentinel errors of errors.go
plus a generic sink-write failure used to model failing `io.Writer`s. -/
inductive Err where
  | emptyStartTag
  | emptyEndTag
  | unterminatedTag
  | invalidTag
  | sink
deriving DecidableEq

/-- bytes.Index: index of the first occurrence of `sep` in `s`, `none` when
absent (Go returns -1). -/
def bytesIndex : Bytes → Bytes → Option Nat
  | s, sep =>
    if sep.isPrefixOf s then some 0
    else
      match s with
      | [] => none
      | _ :: rest => (bytesIndex rest sep).map (· + 1)

/-- bytes.LastIndex: index of the last occurrence of `sep` in `s`. -/
def bytesLastIndex : Bytes → Bytes → Option Nat
  | s, sep =>
    match s with
    | [] => if sep.isPrefixOf s then some 0 else none
    | _ :: rest =>
      match bytesLastIndex rest sep with
      | some i => some (i + 1)
      | none => if sep.isPrefixOf s then some 0 else none

/-- The ASCII white-space bytes trimmed by bytes.TrimSpace. -/
def isASCIISpace (c : Char) : Bool :=
  c = ' ' || c = '\t' || c = '\n' || c = '\x0b' || c = '\x0c' || c = '\r'

/-- bytes.TrimSpace on ASCII input: strip leading and trailing white space. -/
def trimSpace (s : Bytes) : Bytes :=
  ((s.dropWhile isASCIISpace).reverse.dropWhile isASCIISpace).reverse

/-- secondIndex from unsafe.go: the index of the second occurrence of `sep`
in `s`, searching for the second match from one byte past the first match.
Go computes `lenPrev := len(s[:n]) + 1` after reslicing `s = s[n+1:]`, which
equals `n + 1` whenever the reslice is in range. -/
def secondIndex (s sep : Bytes) : Option Nat :=
  match bytesIndex s sep with
  | none => none
  | some n =>
    match bytesIndex (s.drop (n + 1)) sep with
    | none => none
    | some m => some (m + (n + 1))

/-- The parsed template artifact: the stored source text, the delimiters and
the fragment/tag lists produced by Template.Reset. -/
structure Template where
  template : Bytes
  startTag : Bytes
  endTag : Bytes
  texts : List Bytes
  tags : List Bytes
deriving DecidableEq

/-- Result of the tokenizing loop of Template.Reset. -/
inductive TRes where
  | ok (texts : List Bytes) (tags : List Bytes)
  | err (e : Err)
deriving DecidableEq

/-- Result of NewTemplate: a parsed Template or an error. -/
inductive ParseResult where
  | ok (t : Template)
  | err (e : Err)
deriving DecidableEq

/-- The inner loop of Template.Reset (lines 371-376 of the source): while a
further start marker occurs strictly before the nearest end marker, append
the span up to and including that start marker to the missed-tag
accumulator and advance past it.  Returns the remaining input and the
accumulated missed span. -/
def nestedLoop (a b : Bytes) : Nat → Bytes → Bytes × Bytes
  | 0, tb => (tb, [])
  | fuel + 1, tb =>
    match bytesIndex tb a, bytesIndex tb b with
    | some si, some ei =>
      if si < ei then
        let p := nestedLoop a b fuel (tb.drop (si + a.length))
        (p.1, tb.take (si + a.length) ++ p.2)
      else (tb, [])
    | _, _ => (tb, [])

/-- The tag-boundary computation of Template.Reset (lines 378-394 of the
source): `nNext` is the next start-marker position (or the end of the
input); when the two delimiters are equal it is replaced by the second
occurrence of the shared delimiter after the first (falling back to the end
of the input); the boundary is the last end marker before `nNext`.
When `a = b` Go takes `templateBytes[nNext+len(a):]`; dropping past the end
of the list yields `[]`, matching the in-range behaviour. -/
def tagBound (a b tb2 : Bytes) : Option Nat :=
  let nNext0 :=
    match bytesIndex tb2 a with
    | none => tb2.length
    | some m => m
  let nNext :=
    if a = b then
      match secondIndex (tb2.drop (nNext0 + a.length)) a with
      | none => tb2.length
      | some m2 => m2
    else nNext0
  bytesLastIndex (tb2.take nNext) b

/-- The outer loop of Template.Reset: split off the text before the next
start marker, run the nested-start-marker accumulation, resolve the tag
boundary and recurse past the end marker. -/
def parseLoop (a b : Bytes) : Nat → Bytes → TRes
  | 0, _ => .err .unterminatedTag
  | fuel + 1, tb =>
    match bytesIndex tb a with
    | none => .ok [tb] []
    | some n =>
      let tb1 := tb.drop (n + a.length)
      let p := nestedLoop a b (tb1.length + 1) tb1
      match tagBound a b p.1 with
      | none => .err .unterminatedTag
      | some m =>
        match parseLoop a b fuel (p.1.drop (m + b.length)) with
        | .err e => .err e
        | .ok texts tags =>
          .ok (tb.take n :: texts) (trimSpace (p.2 ++ p.1.take m) :: tags)

/-- NewTemplate / Template.Reset: reject empty delimiters; when the template
contains no occurrence of the start delimiter (bytes.Count == 0) return
early with empty fragment and tag lists; otherwise run the tokenizing
loop. -/
def NewTemplate (template a b : Bytes) : ParseResult :=
  if a = [] then .err .emptyStartTag
  else if b = [] then .err .emptyEndTag
  else if bytesIndex template a = none then .ok ⟨template, a, b, [], []⟩
  else
    match parseLoop a b (template.length + 1) template with
    | .err e => .err e
    | .ok texts tags => .ok ⟨template, a, b, texts, tags⟩

/-- A sink (io.Writer) modelled as a state transformer: given the sink state
and the bytes to write, return the new state, the reported byte count and an
optional write error. -/
abbrev Sink (σ : Type) := σ → Bytes → σ × Nat × Option Err

/-- The loop of Template.ExecuteFunc (i = 0 .. n-1 writing texts[i] and
resolving tags[i], then the final write of texts[n]).  The `[]` clause and
the clause with two or more texts but no tags are unreachable for parsed
templates (Go would index out of range on the latter). -/
def executeFuncLoop (write : Sink σ) (f : σ → Bytes → σ × Nat × Option Err) :
    List Bytes → List Bytes → σ → Nat → σ × Nat × Option Err
  | [], _, st, nn => (st, nn, none)
  | [tN], _, st, nn =>
    let r := write st tN
    (r.1, nn + r.2.1, r.2.2)
  | t0 :: t1 :: ts, tags, st, nn =>
    let r := write st t0
    if r.2.2.isSome then (r.1, nn + r.2.1, r.2.2)
    else
      match tags with
      | [] => (r.1, nn + r.2.1, none)
      | tag :: tags' =>
        let q := f r.1 tag
        if q.2.2.isSome then (q.1, nn + r.2.1 + q.2.1, q.2.2)
        else executeFuncLoop write f (t1 :: ts) tags' q.1 (nn + r.2.1 + q.2.1)

/-- Template.ExecuteFunc: when the parse stored no fragments
(`n := len(texts) - 1` is -1) write the raw template; otherwise interleave
the stored fragments with resolved tags via the loop. -/
def Template.ExecuteFunc (t : Template) (write : Sink σ)
    (f : σ → Bytes → σ × Nat × Option Err) (st : σ) : σ × Nat × Option Err :=
  match t.texts with
  | [] =>
    let r := write st t.template
    (r.1, r.2.1, r.2.2)
  | t0 :: ts => executeFuncLoop write f (t0 :: ts) t.tags st 0

/-- The loop of the one-shot ExecuteFunc of fasttemplate.go: scan for the
next start marker, write the text before it, take the tag up to the first
end marker (no trimming, no nested-marker or symmetric-delimiter handling)
and resolve it.  Go checks the error of the fragment writes but not the
error returned by `f`, and discards (`ni, _ = w.Write(a)`) the error of the
dangling-start-delimiter write. -/
def executeOnceLoop (a b : Bytes) (write : Sink σ)
    (f : σ → Bytes → σ × Nat × Option Err) :
    Nat → Bytes → σ → Nat → σ × Nat × Option Err
  | 0, _, st, nn => (st, nn, none)
  | fuel + 1, s, st, nn =>
    match bytesIndex s a with
    | none =>
      let r := write st s
      (r.1, nn + r.2.1, r.2.2)
    | some n =>
      let r := write st (s.take n)
      if r.2.2.isSome then (r.1, nn + r.2.1, r.2.2)
      else
        let s1 := s.drop (n + a.length)
        match bytesIndex s1 b with
        | none =>
          let q := write r.1 a
          let q2 := write q.1 s1
          (q2.1, nn + r.2.1 + q.2.1 + q2.2.1, q2.2.2)
        | some m =>
          let q := f r.1 (s1.take m)
          executeOnceLoop a b write f fuel (s1.drop (m + b.length)) q.1
            (nn + r.2.1 + q.2.1)

/-- The one-shot ExecuteFunc entry point (parse-and-render fused). -/
def ExecuteFunc (template a b : Bytes) (write : Sink σ)
    (f : σ → Bytes → σ × Nat × Option Err) (st : σ) : σ × Nat × Option Err :=
  executeOnceLoop a b write f (template.length + 1) template st 0

/-- The three value kinds a substitution map may carry ([]byte, string,
TagFunc) plus `other`, standing for any value of any other Go type. -/
inductive GoVal (σ : Type) where
  | bytes (b : Bytes)
  | str (s : Bytes)
  | tagFunc (g : σ → Bytes → σ × Nat × Option Err)
  | other

/-- A substitution map: association list from tag name to an optional value;
`none` models a key explicitly bound to nil. -/
abbrev TagMap (σ : Type) := List (Bytes × Option (GoVal σ))

/-- Raw map access distinguishing an absent key (`none`) from a key present
but bound to nil (`some none`). -/
def lookupEntry (m : TagMap σ) (k : Bytes) : Option (Option (GoVal σ)) :=
  match m with
  | [] => none
  | (k', v) :: rest => if k' = k then some v else lookupEntry rest k

/-- Go's `v := m[tag]`: the nil interface both when the key is absent and
when it is bound to nil. -/
def mapLookup (m : TagMap σ) (k : Bytes) : Option (GoVal σ) :=
  match lookupEntry m k with
  | none => none
  | some v => v

/-- stdTagFunc: nil resolution writes nothing, []byte and string values are
written verbatim, a TagFunc delegates to the callback, anything else fails
with ErrInvalidTag. -/
def stdTagFunc (m : TagMap σ) (write : Sink σ) (st : σ) (tag : Bytes) :
    σ × Nat × Option Err :=
  match mapLookup m tag with
  | none => (st, 0, none)
  | some (.bytes b) => write st b
  | some (.str s) => write st s
  | some (.tagFunc g) => g st tag
  | some .other => (st, 0, some .invalidTag)

/-- An infallible in-memory sink: the state is the buffer contents. -/
def bufWrite : Sink Bytes := fun st p => (st ++ p, p.length, none)

/-- A resolver that writes the pure resolution `f tag` to the sink. -/
def pureResolver (f : Bytes → Bytes) : Bytes → Bytes → Bytes × Nat × Option Err :=
  fun st tag => bufWrite st (f tag)

/-- A sink that fails exactly on the write indices selected by `fail`; the
state is the buffer contents paired with the number of writes attempted. -/
def schedWrite (fail : Nat → Bool) : Sink (Bytes × Nat) := fun st p =>
  if fail st.2 then ((st.1, st.2 + 1), 0, some .sink)
  else ((st.1 ++ p, st.2 + 1), p.length, none)

/-- Interleaving of fragments and resolved tag values in template order:
texts[0], tags[0], texts[1], ..., texts[n]. -/
def interleave : List Bytes → List Bytes → List Bytes
  | [], _ => []
  | [t0], _ => [t0]
  | t0 :: _ :: _, [] => [t0]
  | t0 :: t1 :: ts, g :: gs => t0 :: g :: interleave (t1 :: ts) gs

/-- The fragments the renderer actually walks: the stored fragment list, or
the raw template when the parser stored none (zero-tag early return). -/
def effTexts (t : Template) : List Bytes :=
  match t.texts with
  | [] => [t.template]
  | ts => ts

/-- The ordered list of byte chunks a successful render of `t` emits, given
the pure resolution `f` of each tag. -/
def pieces (t : Template) (f : Bytes → Bytes) : List Bytes :=
  interleave (effTexts t) (t.tags.map f)

/-- Specification device: write the given chunks sequentially through a
writer, stopping at the first reported error. -/
def writeSeq (write : Sink σ) : List Bytes → σ → Nat → σ × Nat × Option Err
  | [], st, nn => (st, nn, none)
  | p :: ps, st, nn =>
    let r := write st p
    if r.2.2.isSome then (r.1, nn + r.2.1, r.2.2)
    else writeSeq write ps r.1 (nn + r.2.1)

/-- The tokenization implied by the one-shot scan: each tag is the raw text
from a start marker up to the first following end marker; `none` when some
start marker is never terminated. -/
def naiveLoop (a b : Bytes) : Nat → Bytes → Option (List Bytes × List Bytes)
  | 0, _ => none
  | fuel + 1, s =>
    match bytesIndex s a with
    | none => some ([s], [])
    | some n =>
      let s1 := s.drop (n + a.length)
      match bytesIndex s1 b with
      | none => none
      | some m =>
        match naiveLoop a b fuel (s1.drop (m + b.length)) with
        | none => none
        | some (texts, tags) => some (s.take n :: texts, s1.take m :: tags)

/-- Entry point of the naive one-shot tokenization. -/
def naiveTokens (template a b : Bytes) : Option (List Bytes × List Bytes) :=
  naiveLoop a b (template.length + 1) template

/-- Example template used by several witnesses: `x[a]y` with delimiters
`[` and `]`, parsing to fragments `x`,`y` and tag `a`. -/
def tEx : Template := ⟨str "x[a]y", str "[", str "]", [str "x", str "y"], [str "a"]⟩

/-- Example pure resolver: tag `a` resolves to `X`, all others to nothing. -/
def fEx : Bytes → Bytes := fun tag => if tag = str "a" then str "X" else []

/-- Example TagFunc value: writes nothing and reports success. -/
def gEx : Bytes → Bytes → Bytes × Nat × Option Err := fun st _ => (st, 0, none)

/-- Failure schedule making exactly the second write (index 1) fail. -/
def fail1 : Nat → Bool := fun i => i == 1

/-- Example map binding tag `a` to the string value `A`, over the counting
buffer sink state. -/
def mEx9 : TagMap (Bytes × Nat) := [(str "a", some (.str (str "A")))]

/-- Example map holding one value of every kind. -/
def mEx : TagMap Bytes :=
  [(str "b", some (.bytes (str "BB"))), (str "s", some (.str (str "SS"))),
   (str "g", some (.tagFunc gEx)), (str "o", some .other), (str "n", none)]

/-- Example map binding tag `a` to an unsupported value kind. -/
def mOther : TagMap Bytes := [(str "a", some .other)]

/-- Example map binding tag `a` explicitly to nil. -/
def mNil : TagMap Bytes := [(str "a", (none : Option (GoVal Bytes)))]

/-- A found occurrence of `sep` lies within `s`. -/
theorem bytesIndex_le (sep : Bytes) :
    ∀ (s : Bytes) (n : Nat), bytesIndex s sep = some n → n + sep.length ≤ s.length := by
  intro s
  induction s with
  | nil =>
    intro n h
    rw [bytesIndex] at h
    split at h
    · rename_i hp
      have hl : sep.length ≤ ([] : Bytes).length :=
        (List.isPrefixOf_iff_prefix.mp hp).length_le
      simp only [List.length_nil] at hl
      injection h with h'
      simp only [List.length_nil]
      omega
    · simp at h
  | cons c rest ih =>
    intro n h
    rw [bytesIndex] at h
    split at h
    · rename_i hp
      have hl : sep.length ≤ (c :: rest).length :=
        (List.isPrefixOf_iff_prefix.mp hp).length_le
      injection h with h'
      omega
    · simp only [Option.map_eq_some'] at h
      obtain ⟨m, hm, rfl⟩ := h
      have := ih m hm
      simp only [List.length_cons]
      omega

/-- The nested-start-marker loop only consumes input. -/
theorem nestedLoop_fst_le (a b : Bytes) :
    ∀ (fuel : Nat) (tb : Bytes), (nestedLoop a b fuel tb).1.length ≤ tb.length := by
  intro fuel
  induction fuel with
  | zero => intro tb; simp [nestedLoop]
  | succ fuel ih =>
    intro tb
    rw [nestedLoop]
    split
    · split
      · rename_i si ei hsi hei hlt
        have h1 := ih (tb.drop (si + a.length))
        have h2 : (tb.drop (si + a.length)).length ≤ tb.length := by
          simp [List.length_drop]
        exact le_trans h1 h2
      · simp
    · simp

/-- Every successful run of the tokenizing loop produces one more fragment
than tags. -/
theorem parseLoop_shape (a b : Bytes) :
    ∀ (fuel : Nat) (tb : Bytes) (T G : List Bytes),
      parseLoop a b fuel tb = .ok T G → T.length = G.length + 1 := by
  intro fuel
  induction fuel with
  | zero => intro tb T G h; simp [parseLoop] at h
  | succ fuel ih =>
    intro tb T G h
    simp only [parseLoop] at h
    split at h
    · cases h
      simp
    · split at h
      · simp at h
      · split at h
        · simp at h
        · rename_i texts tags hrec
          cases h
          have := ih _ _ _ hrec
          simp [this]

/-- A successfully parsed Template either keeps both lists empty (the
zero-tag early return) or stores one more fragment than tags. -/
theorem parse_shape (tpl a b : Bytes) (t : Template) (h : NewTemplate tpl a b = .ok t) :
    (t.texts = [] ∧ t.tags = []) ∨ t.texts.length = t.tags.length + 1 := by
  rw [NewTemplate] at h
  split at h
  · simp at h
  · split at h
    · simp at h
    · split at h
      · cases h
        left
        exact ⟨rfl, rfl⟩
      · split at h
        · simp at h
        · rename_i texts tags hrec
          cases h
          right
          exact parseLoop_shape a b _ tpl texts tags hrec

/-- The render loop over stored fragments and tags, with a resolver that
writes the pure resolution of each tag, is a sequential write of the
interleaved chunks through the sink. -/
theorem execLoop_writeSeq (write : Sink σ) (f : Bytes → Bytes) :
    ∀ (texts tags : List Bytes) (st : σ) (nn : Nat),
      executeFuncLoop write (fun st tag => write st (f tag)) texts tags st nn =
        writeSeq write (interleave texts (tags.map f)) st nn := by
  intro texts
  induction texts with
  | nil => intro tags st nn; simp [executeFuncLoop, interleave, writeSeq]
  | cons t0 rest ih =>
    intro tags st nn
    cases rest with
    | nil =>
      rcases hw : write st t0 with ⟨st1, n1, e1⟩
      cases e1 <;>
        simp [executeFuncLoop, interleave, writeSeq, hw]
    | cons t1 ts =>
      cases tags with
      | nil =>
        rcases hw : write st t0 with ⟨st1, n1, e1⟩
        cases e1 <;>
          simp [executeFuncLoop, interleave, writeSeq, hw]
      | cons g gs =>
        rcases hw : write st t0 with ⟨st1, n1, e1⟩
        cases e1 with
        | none =>
          rcases hq : write st1 (f g) with ⟨st2, n2, e2⟩
          cases e2 <;>
            simp [executeFuncLoop, interleave, writeSeq, hw, hq, ih]
        | some e =>
          simp [executeFuncLoop, interleave, writeSeq, hw]

/-- Template.ExecuteFunc with a pure resolver is a sequential write of the
render pieces (including the zero-fragment raw-template case). -/
theorem execT_writeSeq (t : Template) (write : Sink σ) (f : Bytes → Bytes) (st : σ) :
    Template.ExecuteFunc t write (fun st tag => write st (f tag)) st =
      writeSeq write (pieces t f) st 0 := by
  rcases ht : t.texts with _ | ⟨t0, ts⟩
  · rcases hw : write st t.template with ⟨st1, n1, e1⟩
    cases e1 <;>
      simp [Template.ExecuteFunc, pieces, effTexts, interleave, writeSeq, ht, hw]
  · simp only [Template.ExecuteFunc, pieces, effTexts, ht]
    exact execLoop_writeSeq write f (t0 :: ts) t.tags st 0

/-- Sequential writes through the infallible buffer sink append the
concatenation of the chunks and report its total length. -/
theorem writeSeq_buf :
    ∀ (ps : List Bytes) (buf : Bytes) (nn : Nat),
      writeSeq bufWrite ps buf nn = (buf ++ ps.flatten, nn + ps.flatten.length, none) := by
  intro ps
  induction ps with
  | nil => intro buf nn; simp [writeSeq]
  | cons p ps ih =>
    intro buf nn
    simp [writeSeq, bufWrite, ih, List.append_assoc]
    omega

/-- Sequential writes through a sink whose j-th write is the first failing
one emit exactly the first j chunks, stop there and report the sink
error. -/
theorem writeSeq_sched (fail : Nat → Bool) :
    ∀ (ps : List Bytes) (j k : Nat) (buf : Bytes) (nn : Nat),
      (∀ i, i < j → fail (k + i) = false) → fail (k + j) = true → j < ps.length →
      writeSeq (schedWrite fail) ps (buf, k) nn =
        ((buf ++ (ps.take j).flatten, k + j + 1),
          nn + (ps.take j).flatten.length, some .sink) := by
  intro ps
  induction ps with
  | nil => intro j k buf nn _ _ hlt; simp at hlt
  | cons p ps ih =>
    intro j k buf nn hbefore hj hlt
    cases j with
    | zero =>
      have hk : fail k = true := by simpa using hj
      simp [writeSeq, schedWrite, hk]
    | succ j =>
      have h0 : fail k = false := by simpa using hbefore 0 (by omega)
      have hrec := ih j (k + 1) (buf ++ p) (nn + p.length)
        (fun i hi => by
          have := hbefore (i + 1) (by omega)
          simpa [Nat.add_assoc, Nat.add_comm 1 i] using this)
        (by simpa [Nat.add_assoc, Nat.add_comm 1 j] using hj)
        (by simpa using Nat.lt_of_succ_lt_succ (by simpa using hlt))
      simp [writeSeq, schedWrite, h0, hrec, List.append_assoc]
      omega

/-- The naive one-shot tokenization always yields at least one fragment. -/
theorem naiveLoop_ne_nil (a b : Bytes) :
    ∀ (fuel : Nat) (s : Bytes) (T G : List Bytes),
      naiveLoop a b fuel s = some (T, G) → T ≠ [] := by
  intro fuel s T G h
  cases fuel with
  | zero => simp [naiveLoop] at h
  | succ fuel =>
    simp only [naiveLoop] at h
    split at h
    · cases h
      simp
    · split at h
      · simp at h
      · split at h
        · simp at h
        · rename_i texts tags hrec
          cases h
          simp

/-- When every start marker is terminated, the one-shot scan over the
buffer sink emits exactly the naive tokenization interleaved with the pure
tag resolutions. -/
theorem onceLoop_naive (a b : Bytes) (f : Bytes → Bytes) :
    ∀ (fuel : Nat) (s : Bytes) (T G : List Bytes) (buf : Bytes) (nn : Nat),
      naiveLoop a b fuel s = some (T, G) →
      executeOnceLoop a b bufWrite (pureResolver f) fuel s buf nn =
        (buf ++ (interleave T (G.map f)).flatten,
          nn + (interleave T (G.map f)).flatten.length, none) := by
  intro fuel
  induction fuel with
  | zero => intro s T G buf nn h; simp [naiveLoop] at h
  | succ fuel ih =>
    intro s T G buf nn h
    simp only [naiveLoop] at h
    split at h
    · rename_i hidx
      cases h
      simp [executeOnceLoop, hidx, bufWrite, interleave]
    · rename_i n hidx
      split at h
      · simp at h
      · rename_i m hend
        split at h
        · simp at h
        · rename_i texts tags hrec
          cases h
          have hne := naiveLoop_ne_nil a b fuel _ _ _ hrec
          rcases texts with _ | ⟨t0, ts⟩
          · exact absurd rfl hne
          have hrec' := ih _ _ _ (buf ++ (s.take n ++ f ((s.drop (n + a.length)).take m)))
            (nn + ((s.take n).length + (f ((s.drop (n + a.length)).take m)).length)) hrec
          simp only [executeOnceLoop, hidx, hend, bufWrite, pureResolver]
          simp only [Option.isSome_none, Bool.false_eq_true, if_false]
          rw [List.append_assoc, Nat.add_assoc, hrec']
          simp [interleave, List.append_assoc, List.length_append]
          omega

/-- C1: rendering a successfully parsed Template through the buffer sink
with a resolver that writes the pure resolution of each tag emits
fragments[0], then for each i the resolution of tags[i] followed by
fragments[i+1] (the raw template when the parser stored no fragments), in
template order, and returns the total number of bytes written. -/
theorem render_interleaves_fragments_and_tags (tpl a b : Bytes) (t : Template)
    (f : Bytes → Bytes) (buf : Bytes) (h : NewTemplate tpl a b = .ok t) :
    Template.ExecuteFunc t bufWrite (pureResolver f) buf =
      (buf ++ (pieces t f).flatten, (pieces t f).flatten.length, none) := by
  have hm := execT_writeSeq t bufWrite f buf
  have hb := writeSeq_buf (pieces t f) buf 0
  calc Template.ExecuteFunc t bufWrite (pureResolver f) buf
      = writeSeq bufWrite (pieces t f) buf 0 := hm
    _ = (buf ++ (pieces t f).flatten, 0 + (pieces t f).flatten.length, none) := hb
    _ = _ := by simp

/-- Witness for C1 at the template `x[a]y`. -/
theorem render_interleaves_fragments_and_tags_witness :
    Template.ExecuteFunc tEx bufWrite (pureResolver fEx) [] = (str "xXy", 3, none) :=
  (render_interleaves_fragments_and_tags (str "x[a]y") (str "[") (str "]") tEx fEx []
    (by decide)).trans (by decide)

/-- C2 counterexample: parsing `abc` with delimiters `[`,`]` succeeds via
the zero-tag early return, storing no fragments at all, so
`len(fragments) = len(tags) + 1` fails in the zero-tag case. -/
theorem fragment_count_invariant_cex :
    NewTemplate (str "abc") (str "[") (str "]") =
      .ok ⟨str "abc", str "[", str "]", [], []⟩ ∧
    (Template.mk (str "abc") (str "[") (str "]") [] []).texts.length ≠
      (Template.mk (str "abc") (str "[") (str "]") [] []).tags.length + 1 :=
  ⟨by decide, by decide⟩

/-- C2 amended: a successfully parsed Template satisfies
`len(fragments) = len(tags) + 1` whenever the template contains the start
delimiter; when it does not, both stored lists are empty and the raw
template stands in for the single fragment at render time. -/
theorem fragment_count_invariant_amended (tpl a b : Bytes) (t : Template)
    (h : NewTemplate tpl a b = .ok t) :
    (t.texts = [] ∧ t.tags = []) ∨ t.texts.length = t.tags.length + 1 :=
  parse_shape tpl a b t h

/-- Witness for the amended C2 at the template `x[a]y`. -/
theorem fragment_count_invariant_amended_witness :
    (tEx.texts = [] ∧ tEx.tags = []) ∨ tEx.texts.length = tEx.tags.length + 1 :=
  fragment_count_invariant_amended (str "x[a]y") (str "[") (str "]") tEx (by decide)

/-- C3 counterexample: on the template consisting of a single
whitespace-padded tag, the precompiled path trims the tag name and renders
`X`, while the fused one-shot path passes the untrimmed name to the same
resolver and renders nothing. -/
theorem oneshot_equivalence_cex :
    NewTemplate (str "\x7b\x7b a \x7d\x7d") (str "\x7b\x7b") (str "\x7d\x7d") =
      .ok ⟨str "\x7b\x7b a \x7d\x7d", str "\x7b\x7b", str "\x7d\x7d", [[], []], [str "a"]⟩ ∧
    Template.ExecuteFunc
        ⟨str "\x7b\x7b a \x7d\x7d", str "\x7b\x7b", str "\x7d\x7d", [[], []], [str "a"]⟩
        bufWrite (pureResolver fEx) [] = (str "X", 1, none) ∧
    ExecuteFunc (str "\x7b\x7b a \x7d\x7d") (str "\x7b\x7b") (str "\x7d\x7d") bufWrite
        (pureResolver fEx) [] = ([], 0, none) ∧
    (str "X", (1 : Nat), (none : Option Err)) ≠ (([] : Bytes), (0 : Nat), (none : Option Err)) :=
  ⟨by decide, by decide, by decide, by decide⟩

/-- C3 amended: the fused one-shot path coincides with parse-then-render
exactly when the naive one-shot tokenization (first end marker after each
start marker, untrimmed) agrees with the parsed fragments and trimmed
tags; the outputs, byte counts and errors then coincide. -/
theorem oneshot_matches_render_on_naive_agreement (tpl a b : Bytes) (t : Template)
    (f : Bytes → Bytes) (buf : Bytes)
    (hp : NewTemplate tpl a b = .ok t)
    (hn : naiveTokens tpl a b = some (effTexts t, t.tags)) :
    ExecuteFunc tpl a b bufWrite (pureResolver f) buf =
      Template.ExecuteFunc t bufWrite (pureResolver f) buf := by
  have h1 := onceLoop_naive a b f (tpl.length + 1) tpl (effTexts t) t.tags buf 0 hn
  have h2 : Template.ExecuteFunc t bufWrite (pureResolver f) buf =
      writeSeq bufWrite (pieces t f) buf 0 := execT_writeSeq t bufWrite f buf
  have h3 := writeSeq_buf (pieces t f) buf 0
  rw [ExecuteFunc, h1, h2, h3]
  simp [pieces]

/-- Witness for the amended C3 at the template `x[a]y`. -/
theorem oneshot_matches_render_on_naive_agreement_witness :
    ExecuteFunc (str "x[a]y") (str "[") (str "]") bufWrite (pureResolver fEx) [] =
      Template.ExecuteFunc tEx bufWrite (pureResolver fEx) [] :=
  oneshot_matches_render_on_naive_agreement (str "x[a]y") (str "[") (str "]") tEx fEx []
    (by decide) (by decide)

/-- C4 counterexample: parsing a template without the start delimiter
succeeds but stores an empty fragment list, not one fragment equal to the
whole template. -/
theorem zero_tag_parse_cex :
    NewTemplate (str "xyz") (str "[") (str "]") =
      .ok ⟨str "xyz", str "[", str "]", [], []⟩ ∧
    (Template.mk (str "xyz") (str "[") (str "]") [] []).texts ≠ [str "xyz"] :=
  ⟨by decide, by decide⟩

/-- C4 amended: a template without the start delimiter parses to the
zero-tag early-return Template (no stored fragments, no tags), and
rendering it writes exactly the original template text for every
resolver. -/
theorem zero_tag_parse_amended (tpl a b buf : Bytes)
    (g : Bytes → Bytes → Bytes × Nat × Option Err)
    (ha : a ≠ []) (hb : b ≠ []) (h : bytesIndex tpl a = none) :
    NewTemplate tpl a b = .ok ⟨tpl, a, b, [], []⟩ ∧
    Template.ExecuteFunc ⟨tpl, a, b, [], []⟩ bufWrite g buf =
      (buf ++ tpl, tpl.length, none) := by
  constructor
  · rw [NewTemplate]
    simp [ha, hb, h]
  · rfl

/-- Witness for the amended C4 at the template `xyz`. -/
theorem zero_tag_parse_amended_witness :
    NewTemplate (str "xyz") (str "[") (str "]") =
      .ok ⟨str "xyz", str "[", str "]", [], []⟩ ∧
    Template.ExecuteFunc ⟨str "xyz", str "[", str "]", [], []⟩ bufWrite gEx [] =
      ([] ++ str "xyz", (str "xyz").length, none) :=
  zero_tag_parse_amended (str "xyz") (str "[") (str "]") [] gEx
    (by decide) (by decide) (by decide)

/-- C5: with identical delimiters `|`, the template `a|b|c|d|e` parses via
the second-occurrence disambiguation rule to tags `b`,`d` and fragments
`a`,`c`,`e`. -/
theorem symmetric_delims_second_occurrence :
    NewTemplate (str "a|b|c|d|e") (str "|") (str "|") =
      .ok ⟨str "a|b|c|d|e", str "|", str "|",
        [str "a", str "c", str "e"], [str "b", str "d"]⟩ := by decide

/-- C6: the template with a nested start marker parses to the single tag
`a{{b` (inner start markers accumulate into the tag content) with two empty
fragments. -/
theorem nested_start_markers_tag :
    NewTemplate (str "\x7b\x7ba\x7b\x7bb\x7d\x7d") (str "\x7b\x7b") (str "\x7d\x7d") =
      .ok ⟨str "\x7b\x7ba\x7b\x7bb\x7d\x7d", str "\x7b\x7b", str "\x7d\x7d",
        [[], []], [str "a\x7b\x7bb"]⟩ := by decide

/-- C7: the template `a{{b` fails precompiled parsing with the
unterminated-tag error, while the fused one-shot path writes the literal
text `a{{b` (and reports 4 bytes) for every resolver. -/
theorem unterminated_tag_asymmetry :
    NewTemplate (str "a\x7b\x7bb") (str "\x7b\x7b") (str "\x7d\x7d") = .err .unterminatedTag ∧
    ∀ (g : Bytes → Bytes → Bytes × Nat × Option Err),
      ExecuteFunc (str "a\x7b\x7bb") (str "\x7b\x7b") (str "\x7d\x7d") bufWrite g [] =
        (str "a\x7b\x7bb", 4, none) :=
  ⟨by decide, fun _ => rfl⟩

/-- C8: the map-based resolver writes zero bytes without error for a tag
the map does not resolve, writes []byte and string values verbatim through
the sink, delegates to a TagFunc callback, and fails with ErrInvalidTag on
any other value kind leaving the sink untouched; a render hitting such a
tag first stops with that error, the output written so far remaining in
the sink. -/
theorem stdTagFunc_dispatch {σ : Type} (write : Sink σ) (st : σ) (m : TagMap σ) (tag : Bytes) :
    ((lookupEntry m tag = none ∨ lookupEntry m tag = some none) →
      stdTagFunc m write st tag = (st, 0, none)) ∧
    (∀ v, mapLookup m tag = some (.bytes v) → stdTagFunc m write st tag = write st v) ∧
    (∀ v, mapLookup m tag = some (.str v) → stdTagFunc m write st tag = write st v) ∧
    (∀ g, mapLookup m tag = some (.tagFunc g) → stdTagFunc m write st tag = g st tag) ∧
    (mapLookup m tag = some .other → stdTagFunc m write st tag = (st, 0, some .invalidTag)) ∧
    (∀ (tpl a b : Bytes) (t : Template) (mb : TagMap Bytes) (buf : Bytes),
      NewTemplate tpl a b = .ok t → t.tags ≠ [] →
      mapLookup mb t.tags.head! = some .other →
      Template.ExecuteFunc t bufWrite (stdTagFunc mb bufWrite) buf =
        (buf ++ t.texts.head!, t.texts.head!.length, some .invalidTag)) := by
  refine ⟨?_, ?_, ?_, ?_, ?_, ?_⟩
  · rintro (h | h) <;> simp [stdTagFunc, mapLookup, h]
  · intro v h; simp [stdTagFunc, h]
  · intro v h; simp [stdTagFunc, h]
  · intro g h; simp [stdTagFunc, h]
  · intro h; simp [stdTagFunc, h]
  · intro tpl a b t mb buf hp htags hother
    rcases parse_shape tpl a b t hp with ⟨_, htg⟩ | hlen
    · exact absurd htg htags
    · rcases hg : t.tags with _ | ⟨g, gs⟩
      · exact absurd hg htags
      rcases ht : t.texts with _ | ⟨x, rest⟩
      · rw [ht, hg] at hlen
        simp at hlen
      rcases rest with _ | ⟨y, ts⟩
      · rw [ht, hg] at hlen
        simp at hlen
      rw [hg] at hother
      simp only [List.head!] at hother ⊢
      simp [Template.ExecuteFunc, executeFuncLoop, ht, hg, bufWrite, stdTagFunc, hother]

/-- Witness for C8 over the example map holding one value of every kind,
and for its render clause at a template whose tag is bound to an
unsupported kind. -/
theorem stdTagFunc_dispatch_witness :
    stdTagFunc mEx bufWrite (str "w") (str "zz") = (str "w", 0, none) ∧
    stdTagFunc mEx bufWrite (str "w") (str "b") = bufWrite (str "w") (str "BB") ∧
    stdTagFunc mEx bufWrite (str "w") (str "s") = bufWrite (str "w") (str "SS") ∧
    stdTagFunc mEx bufWrite (str "w") (str "g") = gEx (str "w") (str "g") ∧
    stdTagFunc mEx bufWrite (str "w") (str "o") = (str "w", 0, some .invalidTag) ∧
    Template.ExecuteFunc tEx bufWrite (stdTagFunc mOther bufWrite) [] =
      ([] ++ tEx.texts.head!, tEx.texts.head!.length, some .invalidTag) :=
  ⟨(stdTagFunc_dispatch bufWrite (str "w") mEx (str "zz")).1 (Or.inl rfl),
   (stdTagFunc_dispatch bufWrite (str "w") mEx (str "b")).2.1 (str "BB") rfl,
   (stdTagFunc_dispatch bufWrite (str "w") mEx (str "s")).2.2.1 (str "SS") rfl,
   (stdTagFunc_dispatch bufWrite (str "w") mEx (str "g")).2.2.2.1 gEx rfl,
   (stdTagFunc_dispatch bufWrite (str "w") mEx (str "o")).2.2.2.2.1 rfl,
   (stdTagFunc_dispatch bufWrite (str "w") mEx (str "zz")).2.2.2.2.2
     (str "x[a]y") (str "[") (str "]") tEx mOther [] (by decide) (by decide) rfl⟩

/-- C9 counterexample: on the one-shot path with template `x[a]y`, a sink
failing exactly on its second write (the resolver's write of the tag
value) does not halt the render: the trailing fragment `y` is still
written and the call returns no error at all (the resolver's error is
never checked and is overwritten by the final write). -/
theorem oneshot_error_swallow_cex :
    ExecuteFunc (str "x[a]y") (str "[") (str "]") (schedWrite fail1)
      (stdTagFunc mEx9 (schedWrite fail1)) (([], 0)) = ((str "xy", 3), 2, none) := by
  decide

/-- C9 amended: on the precompiled render path the first failing sink
write halts rendering immediately: exactly the chunks before the failure
are in the sink, their total length is returned, together with the sink
error. -/
theorem first_failure_halts_precompiled (tpl a b : Bytes) (t : Template)
    (f : Bytes → Bytes) (fail : Nat → Bool) (j : Nat) (buf : Bytes)
    (hp : NewTemplate tpl a b = .ok t)
    (hbefore : ∀ i, i < j → fail i = false) (hj : fail j = true)
    (hlt : j < (pieces t f).length) :
    Template.ExecuteFunc t (schedWrite fail)
        (fun st tag => schedWrite fail st (f tag)) (buf, 0) =
      ((buf ++ ((pieces t f).take j).flatten, j + 1),
        ((pieces t f).take j).flatten.length, some .sink) := by
  have h1 := execT_writeSeq t (schedWrite fail) f (buf, 0)
  have h2 := writeSeq_sched fail (pieces t f) j 0 buf 0
    (fun i hi => by simpa using hbefore i hi) (by simpa using hj) hlt
  rw [h1, h2]
  simp

/-- Witness for the amended C9: the parsed `x[a]y` rendered through a sink
failing on its second write stops right after the first fragment. -/
theorem first_failure_halts_precompiled_witness :
    Template.ExecuteFunc tEx (schedWrite fail1)
        (fun st tag => schedWrite fail1 st (fEx tag)) (([], 0)) =
      ((str "x", 2), 1, some .sink) :=
  (first_failure_halts_precompiled (str "x[a]y") (str "[") (str "]") tEx fEx fail1 1 []
    (by decide) (by decide) (by decide) (by decide)).trans (by decide)

/-- C10: a tag name bound to nil in the map behaves exactly like an absent
tag name: zero bytes are written, no error is raised, and the result is
the same as with the empty map. -/
theorem nil_value_behaves_as_absent {σ : Type} (write : Sink σ) (st : σ)
    (m : TagMap σ) (tag : Bytes) (h : lookupEntry m tag = some none) :
    stdTagFunc m write st tag = (st, 0, none) ∧
    stdTagFunc m write st tag = stdTagFunc [] write st tag := by
  have hm : mapLookup m tag = none := by rw [mapLookup, h]
  constructor
  · simp [stdTagFunc, hm]
  · simp [stdTagFunc, mapLookup, lookupEntry, h]

/-- Witness for C10 at a map binding `a` to nil. -/
theorem nil_value_behaves_as_absent_witness :
    stdTagFunc mNil bufWrite [] (str "a") = ([], 0, none) ∧
    stdTagFunc mNil bufWrite [] (str "a") = stdTagFunc [] bufWrite [] (str "a") :=
  nil_value_behaves_as_absent bufWrite [] mNil (str "a") rfl
